import Mathlib

/-!
Shallow embedding of `src/main.cpp` (laba7): a minimal in-process test-harness
simulator. Test cases are polymorphic values (`TestCase` / `AdvancedTestCase`)
owned by a `TestSuite` through raw pointers; we model the pointer store as an
arena `Heap` of optional cells (a freed cell is `none`), so that deep-copy,
shallow-copy aliasing and ownership claims are statable. Console output of
`AdvancedTestCase::runTest` is modelled as a trace (`List String`) returned
alongside the boolean result. The static counter `totalTestSuitesCreated` is
threaded explicitly as a `Nat`.
-/

namespace Laba7

/-- The two concrete test-case variants: `TestCase` (base) holds `input` and
`expected`; `AdvancedTestCase` additionally holds `complexityLevel`
(`src/main.cpp` lines 27-60). -/
inductive TestCaseData where
  | base (input expected : String)
  | advanced (input expected : String) (complexityLevel : Int)
deriving DecidableEq, Repr

def TestCaseData.input : TestCaseData → String
  | .base i _ => i
  | .advanced i _ _ => i

def TestCaseData.expected : TestCaseData → String
  | .base _ e => e
  | .advanced _ e _ => e

def TestCaseData.isAdvanced : TestCaseData → Bool
  | .base _ _ => false
  | .advanced _ _ _ => true

/-- The diagnostic line printed by `AdvancedTestCase::runTest`
(`src/main.cpp` line 52). -/
def traceLine (level : Int) : String :=
  "Running advanced test with complexity level: " ++ toString level

/-- `runTest` of each variant, returning the boolean verdict together with the
trace it prints. `TestCase::runTest` (line 32-34) returns `input == expected`
and prints nothing; `AdvancedTestCase::runTest` (lines 51-54) first prints its
diagnostic line and returns `TestCase::runTest() && complexityLevel > 2`. -/
def TestCaseData.runTest : TestCaseData → Bool × List String
  | .base i e => (i == e, [])
  | .advanced i e lvl => ((i == e) && decide (lvl > 2), [traceLine lvl])

/-- `clone` of each variant (`src/main.cpp` lines 37-39 and 57-59): a new
instance with identical field values and the same concrete kind. On the data
itself it is the identity; allocation of the new instance happens in the heap
operations below. -/
def TestCaseData.clone : TestCaseData → TestCaseData
  | .base i e => .base i e
  | .advanced i e lvl => .advanced i e lvl

theorem TestCaseData.clone_eq (d : TestCaseData) : d.clone = d := by
  cases d <;> rfl

/-- Addresses of heap cells (C++ pointers `TestCaseBase*`). -/
abbrev Addr := Nat

/-- The arena of test-case objects: cell `a` holds `some d` while the object
at address `a` is alive, `none` once it was deleted (or never allocated). -/
structure Heap where
  cells : List (Option TestCaseData)
deriving DecidableEq, Repr

/-- Dereference a pointer: `none` models a dangling or null pointer. -/
def Heap.lookup (h : Heap) (a : Addr) : Option TestCaseData :=
  match h.cells[a]? with
  | some c => c
  | none => none

/-- `new`: append a fresh live cell, returning the new heap and the address. -/
def Heap.alloc (h : Heap) (d : TestCaseData) : Heap × Addr :=
  (⟨h.cells ++ [some d]⟩, h.cells.length)

/-- `delete`: kill the cell at `a`. -/
def Heap.free (h : Heap) (a : Addr) : Heap :=
  ⟨h.cells.set a none⟩

/-- Overwrite the object at `a` (used to express independence of copies under
mutation). -/
def Heap.write (h : Heap) (a : Addr) (d : TestCaseData) : Heap :=
  ⟨h.cells.set a (some d)⟩

theorem Heap.lookup_some_lt {h : Heap} {a : Addr} {d : TestCaseData}
    (hl : h.lookup a = some d) : a < h.cells.length := by
  by_contra hge
  have hnone : h.cells[a]? = none := List.getElem?_eq_none (Nat.le_of_not_lt hge)
  simp [Heap.lookup, hnone] at hl

theorem Heap.lookup_alloc_self (h : Heap) (d : TestCaseData) :
    ((h.alloc d).1).lookup (h.alloc d).2 = some d := by
  simp [Heap.alloc, Heap.lookup, List.getElem?_concat_length]

theorem Heap.lookup_alloc_lt (h : Heap) (d : TestCaseData) {a : Addr}
    (ha : a < h.cells.length) : ((h.alloc d).1).lookup a = h.lookup a := by
  simp [Heap.alloc, Heap.lookup, List.getElem?_append_left ha]

theorem Heap.alloc_length (h : Heap) (d : TestCaseData) :
    ((h.alloc d).1).cells.length = h.cells.length + 1 := by
  simp [Heap.alloc]

theorem Heap.free_length (h : Heap) (a : Addr) :
    (h.free a).cells.length = h.cells.length := by
  simp [Heap.free]

theorem Heap.lookup_free_ne (h : Heap) {a b : Addr} (hne : b ≠ a) :
    (h.free b).lookup a = h.lookup a := by
  simp [Heap.free, Heap.lookup, List.getElem?_set_ne hne]

theorem Heap.lookup_free_self (h : Heap) (a : Addr) :
    (h.free a).lookup a = none := by
  by_cases ha : a < h.cells.length
  · simp [Heap.free, Heap.lookup, List.getElem?_set_self ha]
  · have hnone : (h.cells.set a none)[a]? = none := by
      apply List.getElem?_eq_none
      simpa using Nat.le_of_not_lt ha
    simp [Heap.free, Heap.lookup, hnone]

theorem Heap.lookup_write_ne (h : Heap) {a b : Addr} (hne : b ≠ a)
    (d : TestCaseData) : (h.write b d).lookup a = h.lookup a := by
  simp [Heap.write, Heap.lookup, List.getElem?_set_ne hne]

/-- A `TestSuite` (`src/main.cpp` lines 63-123) is an ordered sequence of
owning pointers `vector<TestCaseBase*> tests`. -/
structure TestSuite where
  tests : List Addr
deriving DecidableEq, Repr

/-- The default constructor `TestSuite()` (lines 69-71): empty suite, and the
static counter `totalTestSuitesCreated` is incremented. The counter is modelled
as an explicit `Nat` threaded through. -/
def TestSuite.mkFresh (counter : Nat) : TestSuite × Nat :=
  (⟨[]⟩, counter + 1)

/-- `addTest` (lines 74-76): append an owned pointer. -/
def TestSuite.addTest (s : TestSuite) (a : Addr) : TestSuite :=
  ⟨s.tests ++ [a]⟩

/-- `getTestCount` (lines 84-86). -/
def TestSuite.getTestCount (s : TestSuite) : Nat :=
  s.tests.length

/-- `shallowCopy` (lines 120-122): `tests = other.tests`, i.e. the receiver's
pointer sequence is replaced by the very same pointers as `other`. -/
def TestSuite.shallowCopy (self other : TestSuite) : TestSuite :=
  ⟨other.tests⟩

/-- Dereference every pointer of a list; `none` if any is dangling. -/
def lookupAll (h : Heap) : List Addr → Option (List TestCaseData)
  | [] => some []
  | a :: rest =>
    match h.lookup a, lookupAll h rest with
    | some d, some ds => some (d :: ds)
    | _, _ => none

/-- Clone every pointed-to object into freshly allocated cells, in order
(the loop body `tests.push_back(test->clone())` of lines 99-101 and 108-110);
`none` if a source pointer is dangling (undefined behaviour in the C++). -/
def cloneList (h : Heap) : List Addr → Option (Heap × List Addr)
  | [] => some (h, [])
  | a :: rest =>
    match h.lookup a with
    | none => none
    | some d =>
      let p := h.alloc d.clone
      match cloneList p.1 rest with
      | none => none
      | some q => some (q.1, p.2 :: q.2)

/-- The copy constructor `TestSuite(const TestSuite&)` (lines 107-111): clones
every element of `other` into a fresh suite. Note that, unlike the default
constructor, it does not touch `totalTestSuitesCreated`: the counter is
returned unchanged. -/
def TestSuite.copyConstruct (h : Heap) (other : TestSuite) (counter : Nat) :
    Option (Heap × TestSuite × Nat) :=
  match cloneList h other.tests with
  | none => none
  | some p => some (p.1, ⟨p.2⟩, counter)

/-- `delete` every pointer of a list (the release loop of lines 95-97). -/
def freeList (h : Heap) : List Addr → Heap
  | [] => h
  | a :: rest => freeList (h.free a) rest

/-- `operator=` (lines 93-104). `selfIsOther` models the pointer identity test
`this != &other`: when the two references denote the same object the body is
skipped entirely; otherwise the receiver's elements are deleted and cleared,
then every element of `other` is cloned in. -/
def TestSuite.assign (h : Heap) (self other : TestSuite) (selfIsOther : Bool) :
    Option (Heap × TestSuite) :=
  if selfIsOther then some (h, self)
  else
    match cloneList (freeList h self.tests) other.tests with
    | none => none
    | some p => some (p.1, ⟨p.2⟩)

/-- A `Task` (lines 128-144): description plus an owned `TestSuite` member. -/
structure Task where
  description : String
  testSuite : TestSuite
deriving DecidableEq, Repr

/-- The `Task` constructor (lines 134-135): the member `testSuite(suite)` is
copy-constructed from the argument, i.e. deep-copied into the task. -/
def Task.construct (h : Heap) (desc : String) (suite : TestSuite)
    (counter : Nat) : Option (Heap × Task × Nat) :=
  match TestSuite.copyConstruct h suite counter with
  | none => none
  | some p => some (p.1, ⟨desc, p.2.1⟩, p.2.2)

/-- `UserSolution` (lines 147-158): an opaque code string. -/
structure UserSolution where
  solutionCode : String
deriving DecidableEq, Repr

/-- `ExecutionResult` (lines 161-184). -/
structure ExecutionResult where
  actualOutput : String
  isPassed : Bool
deriving DecidableEq, Repr

/-- The `ExecutionResult` default constructor (line 167): `isPassed = false`,
`actualOutput` default-initialised to the empty string. -/
def ExecutionResult.mkDefault : ExecutionResult :=
  ⟨"", false⟩

/-- `Submission` (lines 187-214). -/
structure Submission where
  solution : UserSolution
  results : List ExecutionResult
  totalPassed : Nat
deriving DecidableEq, Repr

/-- The `Submission` constructor (lines 194-197): stores a copy of the
solution, `totalPassed = 0`, and `results.resize(testCount)` with
default-constructed entries. -/
def Submission.construct (userSolution : UserSolution) (testCount : Nat) :
    Submission :=
  ⟨userSolution, List.replicate testCount ExecutionResult.mkDefault, 0⟩

/-- `runTestCase` (lines 217-222): builds an `ExecutionResult`, calling
`test.runTest()` twice — once for `actualOutput`, once for `isPassed` — and
returns it together with the concatenated trace of the two calls. -/
def runTestCase (solution : UserSolution) (test : TestCaseData) :
    ExecutionResult × List String :=
  let r1 := test.runTest
  let r2 := test.runTest
  (⟨if r1.1 then "Passed" else "Failed", r2.1⟩, r1.2 ++ r2.2)

/-- The loop of `checkSolution` (lines 228-235): for each remaining pointer,
dereference it, run `runTestCase`, store the result at index `i` of the
pre-sized results vector, and accumulate the pass count and the trace. -/
def runTests (h : Heap) (sol : UserSolution) :
    List ExecutionResult → Nat → List Addr →
    Option (List ExecutionResult × Nat × List String)
  | results, _, [] => some (results, 0, [])
  | results, i, a :: rest =>
    match h.lookup a with
    | none => none
    | some d =>
      let rt := runTestCase sol d
      match runTests h sol (results.set i rt.1) (i + 1) rest with
      | none => none
      | some q =>
        some (q.1, (if rt.1.isPassed then 1 else 0) + q.2.1, rt.2 ++ q.2.2)

/-- `checkSolution` (lines 225-238): allocates a `Submission` sized to the
task's test count, runs every test in suite order, sets `totalPassed`, and
returns the submission (plus the heap, unchanged — the function performs no
allocation or deletion of test cases — and the console trace). -/
def checkSolution (h : Heap) (sol : UserSolution) (task : Task) :
    Option (Heap × Submission × List String) :=
  let sub := Submission.construct sol task.testSuite.getTestCount
  match runTests h sol sub.results 0 task.testSuite.tests with
  | none => none
  | some q => some (h, ⟨sub.solution, q.1, q.2.1⟩, q.2.2)

/-- The trace that one `checkSolution` pass over the test data `ds` emits. -/
def allTraces (sol : UserSolution) : List TestCaseData → List String
  | [] => []
  | d :: rest => (runTestCase sol d).2 ++ allTraces sol rest

theorem lookupAll_length {h : Heap} :
    ∀ {l : List Addr} {ds : List TestCaseData},
      lookupAll h l = some ds → ds.length = l.length := by
  intro l
  induction l with
  | nil =>
    intro ds hds
    simp only [lookupAll, Option.some.injEq] at hds
    simp [hds.symm]
  | cons a rest ih =>
    intro ds hds
    simp only [lookupAll] at hds
    cases hla : h.lookup a with
    | none => rw [hla] at hds; simp at hds
    | some d =>
      rw [hla] at hds
      cases hrest : lookupAll h rest with
      | none => rw [hrest] at hds; simp at hds
      | some ds1 =>
        rw [hrest] at hds
        simp only [Option.some.injEq] at hds
        subst hds
        simp [ih hrest]

theorem lookupAll_mem {h : Heap} :
    ∀ {l : List Addr} {ds : List TestCaseData} {a : Addr},
      lookupAll h l = some ds → a ∈ l → ∃ d, h.lookup a = some d := by
  intro l
  induction l with
  | nil => intro ds a _ hmem; cases hmem
  | cons b rest ih =>
    intro ds a hds hmem
    simp only [lookupAll] at hds
    cases hlb : h.lookup b with
    | none => rw [hlb] at hds; simp at hds
    | some d =>
      rw [hlb] at hds
      cases hrest : lookupAll h rest with
      | none => rw [hrest] at hds; simp at hds
      | some ds1 =>
        rcases List.mem_cons.mp hmem with hab | hmem2
        · exact ⟨d, hab ▸ hlb⟩
        · exact ih hrest hmem2

theorem lookupAll_congr {h h2 : Heap} :
    ∀ {l : List Addr} {ds : List TestCaseData},
      (∀ a ∈ l, ∀ d, h.lookup a = some d → h2.lookup a = some d) →
      lookupAll h l = some ds → lookupAll h2 l = some ds := by
  intro l
  induction l with
  | nil => intro ds _ hds; exact hds
  | cons a rest ih =>
    intro ds hpres hds
    simp only [lookupAll] at hds ⊢
    cases hla : h.lookup a with
    | none => rw [hla] at hds; simp at hds
    | some d =>
      rw [hla] at hds
      cases hrest : lookupAll h rest with
      | none => rw [hrest] at hds; simp at hds
      | some ds1 =>
        rw [hrest] at hds
        rw [hpres a (List.mem_cons_self a rest) d hla]
        rw [ih (fun b hb e he => hpres b (List.mem_cons_of_mem a hb) e he) hrest]
        exact hds

theorem cloneList_spec :
    ∀ {l : List Addr} {h : Heap} {ds : List TestCaseData},
      lookupAll h l = some ds →
      ∃ h2 l2, cloneList h l = some (h2, l2) ∧
        l2.length = l.length ∧
        h.cells.length ≤ h2.cells.length ∧
        (∀ a, a < h.cells.length → h2.lookup a = h.lookup a) ∧
        (∀ a ∈ l2, h.cells.length ≤ a ∧ a < h2.cells.length) ∧
        lookupAll h2 l2 = some ds := by
  intro l
  induction l with
  | nil =>
    intro h ds hds
    simp only [lookupAll, Option.some.injEq] at hds
    refine ⟨h, [], rfl, rfl, Nat.le_refl _, fun a _ => rfl, by simp, ?_⟩
    simp [lookupAll, hds]
  | cons a rest ih =>
    intro h ds hds
    simp only [lookupAll] at hds
    cases hla : h.lookup a with
    | none => rw [hla] at hds; simp at hds
    | some d =>
      rw [hla] at hds
      cases hrest : lookupAll h rest with
      | none => rw [hrest] at hds; simp at hds
      | some ds1 =>
        rw [hrest] at hds
        simp only [Option.some.injEq] at hds
        subst hds
        have hlen1 : ((h.alloc d.clone).1).cells.length = h.cells.length + 1 :=
          Heap.alloc_length h d.clone
        have hrest1 : lookupAll ((h.alloc d.clone).1) rest = some ds1 := by
          refine lookupAll_congr ?_ hrest
          intro b _ e he
          rw [Heap.lookup_alloc_lt h d.clone (Heap.lookup_some_lt he)]
          exact he
        obtain ⟨h2, l2, hcl, hl2len, hle, hpres, hmem, hall⟩ := ih hrest1
        rw [hlen1] at hle hpres hmem
        refine ⟨h2, h.cells.length :: l2, ?_, ?_, ?_, ?_, ?_, ?_⟩
        · simp only [cloneList, hla, hcl]
          rfl
        · simp [hl2len]
        · exact Nat.le_trans (Nat.le_succ _) hle
        · intro a0 ha0
          have h1 := hpres a0 (Nat.lt_succ_of_lt ha0)
          rw [h1, Heap.lookup_alloc_lt h d.clone ha0]
        · intro b hb
          rcases List.mem_cons.mp hb with hbeq | hb2
          · subst hbeq
            exact ⟨Nat.le_refl _, Nat.lt_of_lt_of_le (Nat.lt_succ_self _) hle⟩
          · obtain ⟨hb3, hb4⟩ := hmem b hb2
            exact ⟨Nat.le_of_succ_le hb3, hb4⟩
        · simp only [lookupAll, hall]
          have h1 := hpres h.cells.length (Nat.lt_succ_self _)
          have h2a : ((h.alloc d.clone).1).lookup h.cells.length = some d := by
            have := Heap.lookup_alloc_self h d.clone
            simpa [TestCaseData.clone_eq] using this
          rw [h1, h2a]

theorem freeList_length :
    ∀ (l : List Addr) (h : Heap), (freeList h l).cells.length = h.cells.length := by
  intro l
  induction l with
  | nil => intro h; rfl
  | cons a rest ih =>
    intro h
    simp only [freeList]
    rw [ih (h.free a), Heap.free_length]

theorem freeList_lookup_not_mem :
    ∀ (l : List Addr) (h : Heap) {a : Addr},
      a ∉ l → (freeList h l).lookup a = h.lookup a := by
  intro l
  induction l with
  | nil => intro h a _; rfl
  | cons b rest ih =>
    intro h a hnotin
    have hne : b ≠ a := fun hc => hnotin (hc ▸ List.mem_cons_self b rest)
    have hnr : a ∉ rest := fun hc => hnotin (List.mem_cons_of_mem b hc)
    simp only [freeList]
    rw [ih (h.free b) hnr, Heap.lookup_free_ne h hne]

theorem freeList_lookup_mem :
    ∀ (l : List Addr) (h : Heap) {a : Addr},
      a ∈ l → (freeList h l).lookup a = none := by
  intro l
  induction l with
  | nil => intro h a hmem; cases hmem
  | cons b rest ih =>
    intro h a hmem
    simp only [freeList]
    by_cases hr : a ∈ rest
    · exact ih (h.free b) hr
    · have hab : a = b := by
        rcases List.mem_cons.mp hmem with hab | hr2
        · exact hab
        · exact absurd hr2 hr
      subst hab
      rw [freeList_lookup_not_mem rest (h.free a) hr]
      exact Heap.lookup_free_self h a

theorem set_append_cons {α : Type} (x y : α) :
    ∀ (l1 l2 : List α), (l1 ++ x :: l2).set l1.length y = l1 ++ y :: l2 := by
  intro l1
  induction l1 with
  | nil => intro l2; rfl
  | cons z zs ih =>
    intro l2
    simp only [List.cons_append, List.length_cons, List.set_cons_succ]
    rw [ih l2]

theorem runTests_spec {h : Heap} {sol : UserSolution} :
    ∀ {l : List Addr} {ds : List TestCaseData} (pre tail0 : List ExecutionResult),
      lookupAll h l = some ds → tail0.length = l.length →
      runTests h sol (pre ++ tail0) pre.length l =
        some (pre ++ ds.map (fun d => (runTestCase sol d).1),
              (ds.map (fun d => (runTestCase sol d).1)).countP
                (fun r => r.isPassed),
              allTraces sol ds) := by
  intro l
  induction l with
  | nil =>
    intro ds pre tail0 hds htl
    simp only [lookupAll, Option.some.injEq] at hds
    subst hds
    have : tail0 = [] := List.length_eq_zero.mp htl
    subst this
    simp [runTests, allTraces]
  | cons a rest ih =>
    intro ds pre tail0 hds htl
    simp only [lookupAll] at hds
    cases hla : h.lookup a with
    | none => rw [hla] at hds; simp at hds
    | some d =>
      rw [hla] at hds
      cases hrest : lookupAll h rest with
      | none => rw [hrest] at hds; simp at hds
      | some ds1 =>
        rw [hrest] at hds
        simp only [Option.some.injEq] at hds
        subst hds
        cases tail0 with
        | nil => simp at htl
        | cons t0 ts =>
          have hts : ts.length = rest.length := by
            simpa using htl
          simp only [runTests, hla]
          rw [set_append_cons]
          have hIH := ih (pre ++ [(runTestCase sol d).1]) ts hrest hts
          simp only [List.append_assoc, List.singleton_append,
            List.length_append, List.length_singleton] at hIH
          rw [hIH]
          simp only [List.map_cons, List.countP_cons, allTraces,
            Option.some.injEq, Prod.mk.injEq]
          refine ⟨trivial, ?_, trivial⟩
          cases hp : (runTestCase sol d).1.isPassed <;>
            simp [hp, Nat.add_comm]

theorem runTestCase_trace (sol : UserSolution) (d : TestCaseData) :
    (runTestCase sol d).2 = d.runTest.2 ++ d.runTest.2 := rfl

theorem runTest_trace_length (d : TestCaseData) :
    d.runTest.2.length = if d.isAdvanced then 1 else 0 := by
  cases d <;> rfl

theorem allTraces_length (sol : UserSolution) :
    ∀ ds : List TestCaseData,
      (allTraces sol ds).length = 2 * ds.countP TestCaseData.isAdvanced := by
  intro ds
  induction ds with
  | nil => rfl
  | cons d rest ih =>
    simp only [allTraces, List.length_append, runTestCase_trace,
      List.countP_cons, ih, runTest_trace_length]
    cases hd : d.isAdvanced <;> simp [hd] <;> omega

theorem checkSolution_eq {h : Heap} {sol : UserSolution} {task : Task}
    {ds : List TestCaseData}
    (hds : lookupAll h task.testSuite.tests = some ds) :
    checkSolution h sol task =
      some (h,
        ⟨sol, ds.map (fun d => (runTestCase sol d).1),
          (ds.map (fun d => (runTestCase sol d).1)).countP
            (fun r => r.isPassed)⟩,
        allTraces sol ds) := by
  have hrt := @runTests_spec h sol task.testSuite.tests ds []
    (List.replicate task.testSuite.getTestCount ExecutionResult.mkDefault)
    hds (by simp [TestSuite.getTestCount])
  simp only [List.nil_append, List.length_nil] at hrt
  simp only [checkSolution, Submission.construct]
  rw [hrt]

theorem runTestCase_sol_irrelevant (s1 s2 : UserSolution) (t : TestCaseData) :
    runTestCase s1 t = runTestCase s2 t := rfl

theorem runTests_sol_irrelevant (h : Heap) (s1 s2 : UserSolution) :
    ∀ (l : List Addr) (res : List ExecutionResult) (i : Nat),
      runTests h s1 res i l = runTests h s2 res i l := by
  intro l
  induction l with
  | nil => intro res i; rfl
  | cons a rest ih =>
    intro res i
    simp only [runTests]
    cases hla : h.lookup a with
    | none => rfl
    | some d =>
      dsimp only
      rw [runTestCase_sol_irrelevant s1 s2 d, ih]

/-- C5: for every base test case, `runTest()` returns `true` iff
`input == expected`, and its trace is empty (no observable side effect). -/
theorem base_runTest_spec (i e : String) :
    ((TestCaseData.base i e).runTest.1 = true ↔ i = e) ∧
    (TestCaseData.base i e).runTest.2 = [] := by
  constructor
  · simp [TestCaseData.runTest]
  · rfl

/-- C4: for every advanced test case, `runTest()` returns `true` iff
`input == expected` and `complexityLevel > 2`, and every single invocation
emits exactly the one diagnostic line identifying its complexity level,
the same line regardless of the outcome. -/
theorem advanced_runTest_spec (i e : String) (lvl : Int) :
    ((TestCaseData.advanced i e lvl).runTest.1 = true ↔ i = e ∧ lvl > 2) ∧
    (TestCaseData.advanced i e lvl).runTest.2 = [traceLine lvl] := by
  constructor
  · simp [TestCaseData.runTest]
  · rfl

/-- C10: the `ExecutionResult` built by `runTestCase` is internally
consistent: `actualOutput` is `"Passed"` exactly when `isPassed` is `true`
and `"Failed"` exactly when it is `false` — the two separate `runTest()`
evaluations agree because `runTest` is deterministic. -/
theorem executionResult_consistency (sol : UserSolution) (t : TestCaseData) :
    ((runTestCase sol t).1.actualOutput = "Passed" ↔
      (runTestCase sol t).1.isPassed = true) ∧
    ((runTestCase sol t).1.actualOutput = "Failed" ↔
      (runTestCase sol t).1.isPassed = false) := by
  cases hb : t.runTest.1 <;>
    simp [runTestCase, hb]

/-- C9: `shallowCopy` performs no cloning: the receiver's element sequence
becomes exactly the same addresses as the source's, in the same order, so
the two suites alias the same underlying test-case instances. -/
theorem shallowCopy_aliasing_spec (self other : TestSuite) (h : Heap) :
    (TestSuite.shallowCopy self other).tests = other.tests ∧
    lookupAll h (TestSuite.shallowCopy self other).tests =
      lookupAll h other.tests :=
  ⟨rfl, rfl⟩

/-- C7: noninterference of the solution argument: `runTestCase` returns
identical `ExecutionResult`s and traces for any two solutions, and
`checkSolution` returns identical heaps, results sequences, `totalPassed`
counts and traces for any two solutions — the outcome depends solely on the
test cases themselves. -/
theorem runner_solution_noninterference (s1 s2 : UserSolution)
    (t : TestCaseData) (h : Heap) (task : Task) :
    runTestCase s1 t = runTestCase s2 t ∧
    Option.map (fun p => (p.1, p.2.1.results, p.2.1.totalPassed, p.2.2))
        (checkSolution h s1 task) =
      Option.map (fun p => (p.1, p.2.1.results, p.2.1.totalPassed, p.2.2))
        (checkSolution h s2 task) := by
  refine ⟨rfl, ?_⟩
  simp only [checkSolution, Submission.construct]
  rw [runTests_sol_irrelevant h s1 s2 task.testSuite.tests _ 0]
  cases hq : runTests h s2
      (List.replicate task.testSuite.getTestCount ExecutionResult.mkDefault)
      0 task.testSuite.tests with
  | none => rfl
  | some q => rfl

/-- C1: `checkSolution` returns a `Submission` whose results sequence has
length equal to the task's suite test count, whose `totalPassed` equals the
number of results with `isPassed` true, with the results stored in suite
order at their corresponding indices; for an empty suite it returns zero
results and `totalPassed = 0`. -/
theorem checkSolution_submission_spec (h : Heap) (sol : UserSolution)
    (task : Task) (ds : List TestCaseData) (h2 : Heap) (sub : Submission)
    (trs : List String)
    (hds : lookupAll h task.testSuite.tests = some ds)
    (hck : checkSolution h sol task = some (h2, sub, trs)) :
    sub.results.length = task.testSuite.getTestCount ∧
    sub.totalPassed = sub.results.countP (fun r => r.isPassed) ∧
    sub.results = ds.map (fun d => (runTestCase sol d).1) ∧
    (task.testSuite.tests = [] → sub.results = [] ∧ sub.totalPassed = 0) := by
  rw [checkSolution_eq hds] at hck
  simp only [Option.some.injEq, Prod.mk.injEq] at hck
  obtain ⟨hh, hsub, htr⟩ := hck
  subst hsub
  refine ⟨?_, rfl, rfl, ?_⟩
  · simp [List.length_map, lookupAll_length hds, TestSuite.getTestCount]
  · intro hnil
    have hdse : ds = [] := by
      rw [hnil] at hds
      simp only [lookupAll, Option.some.injEq] at hds
      exact hds.symm
    subst hdse
    exact ⟨rfl, rfl⟩

/-- Witness for C1 at the concrete scenario of the spec: two base tests
`("input1","input1")` and `("input2","expected2")`. -/
theorem checkSolution_submission_spec_witness :
    (⟨⟨"user_solution_code"⟩, [⟨"Passed", true⟩, ⟨"Failed", false⟩], 1⟩ :
        Submission).results.length =
      TestSuite.getTestCount ⟨[0, 1]⟩ ∧
    (⟨⟨"user_solution_code"⟩, [⟨"Passed", true⟩, ⟨"Failed", false⟩], 1⟩ :
        Submission).totalPassed =
      (⟨⟨"user_solution_code"⟩, [⟨"Passed", true⟩, ⟨"Failed", false⟩], 1⟩ :
        Submission).results.countP (fun r => r.isPassed) ∧
    (⟨⟨"user_solution_code"⟩, [⟨"Passed", true⟩, ⟨"Failed", false⟩], 1⟩ :
        Submission).results =
      [TestCaseData.base "input1" "input1",
        TestCaseData.base "input2" "expected2"].map
        (fun d => (runTestCase ⟨"user_solution_code"⟩ d).1) ∧
    ((⟨"Example Task", ⟨[0, 1]⟩⟩ : Task).testSuite.tests = [] →
      (⟨⟨"user_solution_code"⟩, [⟨"Passed", true⟩, ⟨"Failed", false⟩], 1⟩ :
          Submission).results = [] ∧
      (⟨⟨"user_solution_code"⟩, [⟨"Passed", true⟩, ⟨"Failed", false⟩], 1⟩ :
          Submission).totalPassed = 0) :=
  checkSolution_submission_spec
    ⟨[some (TestCaseData.base "input1" "input1"),
      some (TestCaseData.base "input2" "expected2")]⟩
    ⟨"user_solution_code"⟩ ⟨"Example Task", ⟨[0, 1]⟩⟩
    [TestCaseData.base "input1" "input1",
      TestCaseData.base "input2" "expected2"]
    ⟨[some (TestCaseData.base "input1" "input1"),
      some (TestCaseData.base "input2" "expected2")]⟩
    ⟨⟨"user_solution_code"⟩, [⟨"Passed", true⟩, ⟨"Failed", false⟩], 1⟩
    [] rfl rfl

/-- C2 counterexample: the claim says the counter increments by 1 on every
construction including copies, so two fresh constructions (counter 2)
followed by one copy construction should read 3; the copy constructor of
the source does not touch the counter, so it reads 2. -/
theorem suiteCounter_copy_increment_cex :
    (TestSuite.copyConstruct ⟨[some (TestCaseData.base "x" "x")]⟩ ⟨[0]⟩
        (TestSuite.mkFresh (TestSuite.mkFresh 0).2).2).map
      (fun p => p.2.2) = some 2 ∧
    ¬ ((TestSuite.copyConstruct ⟨[some (TestCaseData.base "x" "x")]⟩ ⟨[0]⟩
        (TestSuite.mkFresh (TestSuite.mkFresh 0).2).2).map
      (fun p => p.2.2) = some 3) := by
  exact ⟨rfl, by decide⟩

/-- C2 amended: the counter is monotonically non-decreasing and never
decremented; it increments by exactly 1 on every fresh (default)
construction, while copy construction leaves it unchanged; starting from 0,
constructing 2 suites and copying one yields a counter reading of 2. -/
theorem suiteCounter_amended_spec (c : Nat) (h : Heap) (s : TestSuite)
    (h2 : Heap) (s2 : TestSuite) (c2 : Nat)
    (hcopy : TestSuite.copyConstruct h s c = some (h2, s2, c2)) :
    (TestSuite.mkFresh c).2 = c + 1 ∧
    c ≤ (TestSuite.mkFresh c).2 ∧
    c2 = c ∧ c ≤ c2 ∧
    (TestSuite.copyConstruct ⟨[some (TestCaseData.base "x" "x")]⟩ ⟨[0]⟩
        (TestSuite.mkFresh (TestSuite.mkFresh 0).2).2).map
      (fun p => p.2.2) = some 2 := by
  have hc2 : c2 = c := by
    simp only [TestSuite.copyConstruct] at hcopy
    cases hcl : cloneList h s.tests with
    | none => rw [hcl] at hcopy; simp at hcopy
    | some p =>
      rw [hcl] at hcopy
      simp only [Option.some.injEq, Prod.mk.injEq] at hcopy
      exact hcopy.2.2.symm
  subst hc2
  exact ⟨rfl, Nat.le_succ _, rfl, Nat.le_refl _, rfl⟩

/-- Witness for C2's amended theorem at a concrete copy construction. -/
theorem suiteCounter_amended_spec_witness :
    (TestSuite.mkFresh 2).2 = 2 + 1 ∧
    2 ≤ (TestSuite.mkFresh 2).2 ∧
    2 = 2 ∧ 2 ≤ 2 ∧
    (TestSuite.copyConstruct ⟨[some (TestCaseData.base "x" "x")]⟩ ⟨[0]⟩
        (TestSuite.mkFresh (TestSuite.mkFresh 0).2).2).map
      (fun p => p.2.2) = some 2 :=
  suiteCounter_amended_spec 2 ⟨[some (TestCaseData.base "x" "x")]⟩ ⟨[0]⟩
    ⟨[some (TestCaseData.base "x" "x"), some (TestCaseData.base "x" "x")]⟩
    ⟨[1]⟩ 2 rfl

/-- C3 counterexample: a suite with one advanced test (level 3): one call of
`checkSolution` emits two diagnostic trace lines for that test, not one,
because `runTestCase` invokes `runTest()` twice. -/
theorem advanced_trace_once_cex :
    (checkSolution ⟨[some (TestCaseData.advanced "x" "x" 3)]⟩ ⟨"code"⟩
        ⟨"T", ⟨[0]⟩⟩).map (fun p => p.2.2.length) = some 2 ∧
    ¬ ((checkSolution ⟨[some (TestCaseData.advanced "x" "x" 3)]⟩ ⟨"code"⟩
        ⟨"T", ⟨[0]⟩⟩).map (fun p => p.2.2.length) = some 1) := by
  exact ⟨rfl, by decide⟩

/-- C3 amended: during one `checkSolution` call, `runTestCase` is invoked
exactly once per test in suite order, but each `runTestCase` invokes
`runTest()` twice (once for `actualOutput`, once for `isPassed`);
consequently each advanced test emits exactly two diagnostic trace lines
per `checkSolution` call. -/
theorem runTest_invocations_spec (h : Heap) (sol : UserSolution) (task : Task)
    (ds : List TestCaseData)
    (hds : lookupAll h task.testSuite.tests = some ds) :
    (∀ d : TestCaseData, (runTestCase sol d).2 = d.runTest.2 ++ d.runTest.2) ∧
    (checkSolution h sol task).map (fun p => p.2.2) =
      some (allTraces sol ds) ∧
    (allTraces sol ds).length = 2 * ds.countP TestCaseData.isAdvanced := by
  refine ⟨fun d => rfl, ?_, allTraces_length sol ds⟩
  rw [checkSolution_eq hds]
  rfl

/-- Witness for C3's amended theorem at a concrete one-advanced-test task. -/
theorem runTest_invocations_spec_witness :
    (checkSolution ⟨[some (TestCaseData.advanced "x" "x" 3)]⟩ ⟨"code"⟩
        ⟨"T", ⟨[0]⟩⟩).map (fun p => p.2.2) =
      some (allTraces ⟨"code"⟩ [TestCaseData.advanced "x" "x" 3]) ∧
    (allTraces ⟨"code"⟩ [TestCaseData.advanced "x" "x" 3]).length =
      2 * ([TestCaseData.advanced "x" "x" 3].countP
        TestCaseData.isAdvanced) := by
  have hthm := runTest_invocations_spec
    ⟨[some (TestCaseData.advanced "x" "x" 3)]⟩ ⟨"code"⟩ ⟨"T", ⟨[0]⟩⟩
    [TestCaseData.advanced "x" "x" 3] rfl
  exact ⟨hthm.2.1, hthm.2.2⟩

/-- C6: deep-copy law. Copy construction yields a suite of the same length
whose elements have, position by position, the same field values and the
same concrete variant kind as the source's, at addresses disjoint from the
source's, so that overwriting or deleting an element of either suite never
affects the other; copy assignment first releases the destination's prior
elements (their cells become dead) and then deep-copies the source; and
self-assignment is a no-op. -/
theorem testSuite_deep_copy_law (h : Heap) (other self : TestSuite) (c : Nat)
    (ds : List TestCaseData) (h2 : Heap) (s2 : TestSuite) (c2 : Nat)
    (h3 : Heap) (s3 : TestSuite)
    (hds : lookupAll h other.tests = some ds)
    (hcc : TestSuite.copyConstruct h other c = some (h2, s2, c2))
    (hownself : ∀ a ∈ self.tests, a < h.cells.length ∧ a ∉ other.tests)
    (hasg : TestSuite.assign h self other false = some (h3, s3)) :
    s2.tests.length = other.tests.length ∧
    lookupAll h2 s2.tests = some ds ∧
    lookupAll h2 other.tests = some ds ∧
    (∀ a ∈ s2.tests, ∀ b ∈ other.tests, a ≠ b) ∧
    (∀ a ∈ s2.tests, ∀ b ∈ other.tests, ∀ d0 : TestCaseData,
      (h2.write b d0).lookup a = h2.lookup a ∧
      (h2.free b).lookup a = h2.lookup a ∧
      (h2.write a d0).lookup b = h2.lookup b ∧
      (h2.free a).lookup b = h2.lookup b) ∧
    s3.tests.length = other.tests.length ∧
    lookupAll h3 s3.tests = some ds ∧
    (∀ a ∈ self.tests, h3.lookup a = none) ∧
    TestSuite.assign h self self true = some (h, self) := by
  obtain ⟨h2a, l2, hcl, hlen, hle, hpres, hmem, hall⟩ := cloneList_spec hds
  have hcc2 : h2 = h2a ∧ s2 = ⟨l2⟩ ∧ c2 = c := by
    simp only [TestSuite.copyConstruct, hcl, Option.some.injEq,
      Prod.mk.injEq] at hcc
    exact ⟨hcc.1.symm, hcc.2.1.symm, hcc.2.2.symm⟩
  obtain ⟨hh2, hs2, _⟩ := hcc2
  subst hh2
  subst hs2
  have hotherlt : ∀ b ∈ other.tests, b < h.cells.length := by
    intro b hb
    obtain ⟨e, he⟩ := lookupAll_mem hds hb
    exact Heap.lookup_some_lt he
  have hdisj : ∀ a ∈ l2, ∀ b ∈ other.tests, a ≠ b := by
    intro a ha b hb hab
    have h1 := (hmem a ha).1
    have h2b := hotherlt b hb
    rw [hab] at h1
    exact Nat.lt_irrefl b (Nat.lt_of_lt_of_le h2b h1)
  have hother2 : lookupAll h2 other.tests = some ds := by
    refine lookupAll_congr ?_ hds
    intro b hb e he
    rw [hpres b (hotherlt b hb)]
    exact he
  -- the assignment path
  have hselfnotin : ∀ b ∈ other.tests, b ∉ self.tests := by
    intro b hb hbs
    exact (hownself b hbs).2 hb
  have hfds : lookupAll (freeList h self.tests) other.tests = some ds := by
    refine lookupAll_congr ?_ hds
    intro b hb e he
    rw [freeList_lookup_not_mem self.tests h (hselfnotin b hb)]
    exact he
  obtain ⟨h3a, l3, hcl3, hlen3, hle3, hpres3, hmem3, hall3⟩ :=
    cloneList_spec hfds
  have hasg2 : h3 = h3a ∧ s3 = ⟨l3⟩ := by
    simp only [TestSuite.assign, Bool.false_eq_true, if_false, hcl3,
      Option.some.injEq, Prod.mk.injEq] at hasg
    exact ⟨hasg.1.symm, hasg.2.symm⟩
  obtain ⟨hh3, hs3⟩ := hasg2
  subst hh3
  subst hs3
  refine ⟨hlen, hall, hother2, hdisj, ?_, hlen3, hall3, ?_, rfl⟩
  · intro a ha b hb d0
    have hne : a ≠ b := hdisj a ha b hb
    exact ⟨Heap.lookup_write_ne h2 hne.symm d0,
      Heap.lookup_free_ne h2 hne.symm,
      Heap.lookup_write_ne h2 hne d0,
      Heap.lookup_free_ne h2 hne⟩
  · intro a ha
    have hafree : (freeList h self.tests).lookup a = none :=
      freeList_lookup_mem self.tests h ha
    have halt : a < (freeList h self.tests).cells.length := by
      rw [freeList_length self.tests h]
      exact (hownself a ha).1
    rw [hpres3 a halt]
    exact hafree

/-- Witness for C6 at a concrete three-cell heap: `other` owns cells 0 and 1,
`self` owns cell 2. -/
theorem testSuite_deep_copy_law_witness :
    (⟨[3, 4]⟩ : TestSuite).tests.length =
      (⟨[0, 1]⟩ : TestSuite).tests.length ∧
    lookupAll
      ⟨[some (TestCaseData.base "x" "x"),
        some (TestCaseData.advanced "y" "z" 3),
        some (TestCaseData.base "q" "q"),
        some (TestCaseData.base "x" "x"),
        some (TestCaseData.advanced "y" "z" 3)]⟩
      (⟨[3, 4]⟩ : TestSuite).tests =
      some [TestCaseData.base "x" "x", TestCaseData.advanced "y" "z" 3] ∧
    lookupAll
      ⟨[some (TestCaseData.base "x" "x"),
        some (TestCaseData.advanced "y" "z" 3), none,
        some (TestCaseData.base "x" "x"),
        some (TestCaseData.advanced "y" "z" 3)]⟩
      (⟨[3, 4]⟩ : TestSuite).tests =
      some [TestCaseData.base "x" "x", TestCaseData.advanced "y" "z" 3] ∧
    TestSuite.assign
      ⟨[some (TestCaseData.base "x" "x"),
        some (TestCaseData.advanced "y" "z" 3),
        some (TestCaseData.base "q" "q")]⟩
      ⟨[2]⟩ ⟨[2]⟩ true =
      some (⟨[some (TestCaseData.base "x" "x"),
        some (TestCaseData.advanced "y" "z" 3),
        some (TestCaseData.base "q" "q")]⟩, ⟨[2]⟩) := by
  have hthm := testSuite_deep_copy_law
    ⟨[some (TestCaseData.base "x" "x"),
      some (TestCaseData.advanced "y" "z" 3),
      some (TestCaseData.base "q" "q")]⟩
    ⟨[0, 1]⟩ ⟨[2]⟩ 0
    [TestCaseData.base "x" "x", TestCaseData.advanced "y" "z" 3]
    ⟨[some (TestCaseData.base "x" "x"),
      some (TestCaseData.advanced "y" "z" 3),
      some (TestCaseData.base "q" "q"),
      some (TestCaseData.base "x" "x"),
      some (TestCaseData.advanced "y" "z" 3)]⟩
    ⟨[3, 4]⟩ 0
    ⟨[some (TestCaseData.base "x" "x"),
      some (TestCaseData.advanced "y" "z" 3), none,
      some (TestCaseData.base "x" "x"),
      some (TestCaseData.advanced "y" "z" 3)]⟩
    ⟨[3, 4]⟩ rfl rfl (by decide) rfl
  exact ⟨hthm.1, hthm.2.1, hthm.2.2.2.2.2.2.1,
    hthm.2.2.2.2.2.2.2.2⟩

/-- C8: a `Task` deep-copies the suite into itself at construction: its suite
holds the same test data as the source but at disjoint addresses, so
overwriting or deleting the original suite's elements never changes the
task's suite; and `checkSolution` leaves the heap — hence the task's
description and suite contents — unchanged. -/
theorem task_copy_immutability_spec (h : Heap) (desc : String)
    (suite : TestSuite) (c : Nat) (ds : List TestCaseData)
    (h2 : Heap) (tk : Task) (c2 : Nat) (sol : UserSolution)
    (h3 : Heap) (sub : Submission) (trs : List String)
    (hds : lookupAll h suite.tests = some ds)
    (hct : Task.construct h desc suite c = some (h2, tk, c2))
    (hck : checkSolution h2 sol tk = some (h3, sub, trs)) :
    tk.description = desc ∧
    lookupAll h2 tk.testSuite.tests = some ds ∧
    (∀ a ∈ tk.testSuite.tests, ∀ b ∈ suite.tests, a ≠ b) ∧
    (∀ b ∈ suite.tests, ∀ d0 : TestCaseData,
      lookupAll (h2.write b d0) tk.testSuite.tests = some ds ∧
      lookupAll (h2.free b) tk.testSuite.tests = some ds) ∧
    h3 = h2 ∧
    lookupAll h3 tk.testSuite.tests = some ds := by
  obtain ⟨h2a, l2, hcl, hlen, hle, hpres, hmem, hall⟩ := cloneList_spec hds
  have hct2 : h2 = h2a ∧ (⟨desc, ⟨l2⟩⟩ : Task) = tk ∧ c = c2 := by
    simp only [Task.construct, TestSuite.copyConstruct, hcl,
      Option.some.injEq, Prod.mk.injEq] at hct
    exact ⟨hct.1.symm, hct.2.1, hct.2.2⟩
  obtain ⟨hh2, htk, _⟩ := hct2
  subst hh2
  subst htk
  have hsuitelt : ∀ b ∈ suite.tests, b < h.cells.length := by
    intro b hb
    obtain ⟨e, he⟩ := lookupAll_mem hds hb
    exact Heap.lookup_some_lt he
  have hdisj : ∀ a ∈ l2, ∀ b ∈ suite.tests, a ≠ b := by
    intro a ha b hb hab
    have h1 := (hmem a ha).1
    have h2b := hsuitelt b hb
    rw [hab] at h1
    exact Nat.lt_irrefl b (Nat.lt_of_lt_of_le h2b h1)
  have hh3 : h3 = h2 := by
    simp only [checkSolution] at hck
    cases hrt : runTests h2 sol
        (Submission.construct sol
          (TestSuite.getTestCount ⟨l2⟩)).results 0 l2 with
    | none =>
      rw [hrt] at hck
      simp at hck
    | some q =>
      rw [hrt] at hck
      simp only [Option.some.injEq, Prod.mk.injEq] at hck
      exact hck.1.symm
  refine ⟨rfl, hall, hdisj, ?_, hh3, ?_⟩
  · intro b hb d0
    constructor
    · refine lookupAll_congr ?_ hall
      intro a ha e he
      rw [Heap.lookup_write_ne h2 (hdisj a ha b hb).symm d0]
      exact he
    · refine lookupAll_congr ?_ hall
      intro a ha e he
      rw [Heap.lookup_free_ne h2 (hdisj a ha b hb).symm]
      exact he
  · rw [hh3]
    exact hall

/-- Witness for C8 at a concrete one-test heap. -/
theorem task_copy_immutability_spec_witness :
    (⟨"Example Task", ⟨[1]⟩⟩ : Task).description = "Example Task" ∧
    lookupAll
      ⟨[some (TestCaseData.base "x" "x"), some (TestCaseData.base "x" "x")]⟩
      (⟨"Example Task", ⟨[1]⟩⟩ : Task).testSuite.tests =
      some [TestCaseData.base "x" "x"] ∧
    (⟨[some (TestCaseData.base "x" "x"),
        some (TestCaseData.base "x" "x")]⟩ : Heap) =
      ⟨[some (TestCaseData.base "x" "x"),
        some (TestCaseData.base "x" "x")]⟩ := by
  have hthm := task_copy_immutability_spec
    ⟨[some (TestCaseData.base "x" "x")]⟩ "Example Task" ⟨[0]⟩ 0
    [TestCaseData.base "x" "x"]
    ⟨[some (TestCaseData.base "x" "x"), some (TestCaseData.base "x" "x")]⟩
    ⟨"Example Task", ⟨[1]⟩⟩ 0 ⟨"code"⟩
    ⟨[some (TestCaseData.base "x" "x"), some (TestCaseData.base "x" "x")]⟩
    ⟨⟨"code"⟩, [⟨"Passed", true⟩], 1⟩ [] rfl rfl rfl
  exact ⟨hthm.1, hthm.2.1, hthm.2.2.2.2.1⟩

end Laba7
